import Mathlib

/-!
Verification of the stream-selection and retry-orchestration core of yle-dl
(`yledl/downloader.py`), shallowly embedded in Lean 4.

The embedding mirrors the source code:
* `StreamFlavor`, `StreamHandle`, `StreamFilters` model the data consumed by
  `YleDlDownloader.select_flavor` and friends;
* the Python stable `sorted(key=..., reverse=...)` is modelled by `pysorted`
  (stable insertion sort; `reverse=True` gives the stable descending order,
  which is the documented CPython behaviour);
* side-effecting collaborators (the extractor, the transfer backends,
  `os.path.isfile` / `os.remove`, the internal-to-external result-code
  mapping) are parameters of the embedded functions, and the interesting
  side-effects (transfer attempts, `os.remove` calls) are recorded in an
  explicit event trace.
-/

set_option maxHeartbeats 1000000

namespace YleDl

/-- Result codes from `yledl/exitcodes.py`: RD_SUCCESS, RD_INCOMPLETE,
RD_FAILED, RD_SUBPROCESS_EXECUTE_FAILED (the constants imported at the top of
`downloader.py`). -/
inductive RDCode where
  | success
  | incomplete
  | failed
  | subprocessExecuteFailed
deriving Repr, DecidableEq

/-- A backend-specific stream handle: `name` is the backend identifier compared
against `filters.enabled_backends` in `filter_streams_by_backend`
(downloader.py line 184), `is_valid` and `error_message` are the validity
flag and diagnostic used in `backend_not_enabled_flavor` and `process`. -/
structure StreamHandle where
  name : String
  is_valid : Bool
  error_message : String
deriving Repr, DecidableEq

/-- One encoding variant of a clip (`StreamFlavor` from `yledl/extractors.py`,
as used by `downloader.py`): optional height/width/bitrate and the list of
backend stream handles. Absent height/bitrate is modelled as `none`, matching
the Python `None` with the `or 0` default applied at the use sites. -/
structure StreamFlavor where
  media_type : String := "video"
  height : Option Nat := none
  width : Option Nat := none
  bitrate : Option Nat := none
  streams : List StreamHandle := []
deriving Repr, DecidableEq

/-- The user filters consumed by `select_flavor` (`StreamFilters` in yledl):
optional max height / max bitrate ceilings and the ordered list of enabled
backend names. -/
structure StreamFilters where
  latest_only : Bool := false
  maxheight : Option Nat := none
  maxbitrate : Option Nat := none
  enabled_backends : List String := []
deriving Repr, DecidableEq

/-- A clip as consumed by `process`: only its flavor list matters to the
selection core (`clip.flavors` at downloader.py line 119). -/
structure Clip where
  flavors : List StreamFlavor
deriving Repr, DecidableEq

/-- `fl.height or 0`: the absent-height-as-0 convention of
`apply_resolution_filters`. -/
def heightOr0 (fl : StreamFlavor) : Nat := fl.height.getD 0

/-- `fl.bitrate or 0`: the absent-bitrate-as-0 convention of
`apply_resolution_filters`. -/
def bitrateOr0 (fl : StreamFlavor) : Nat := fl.bitrate.getD 0

/-! ## The Python stable sort -/

/-- Insert `x` into `l` immediately before the first element `y` with
`lt x y`; used to build a stable sort. -/
def insertLeft (lt : α → α → Bool) (x : α) : List α → List α
  | [] => [x]
  | y :: ys => if lt x y then x :: y :: ys else y :: insertLeft lt x ys

/-- Stable insertion sort: elements are taken from the input left to right and
each is inserted after all elements that do not strictly exceed it, so elements
with equal keys keep their original relative order. -/
def stableSortAux (lt : α → α → Bool) (acc : List α) : List α → List α
  | [] => acc
  | x :: xs => stableSortAux lt (insertLeft lt x acc) xs

/-- Model of the Python `sorted(xs, key=k, reverse=r)` where `lt` is the strict
comparison induced by the key `k`. In CPython, `reverse=True` sorts in
descending key order while keeping equal-key elements in their original
relative order; that is exactly the stable sort by the flipped comparison. -/
def pysorted (lt : α → α → Bool) (reverse : Bool) (xs : List α) : List α :=
  if reverse then stableSortAux (fun a b => lt b a) [] xs
  else stableSortAux lt [] xs

/-! ## FlavorFilter (`select_flavor` and helpers, downloader.py 156-263) -/

/-- `filter_streams_by_backend` (downloader.py 180-189): keep only the stream
handles whose backend name is enabled, re-ordered by the position of their
backend in `enabled_backends`. -/
def filter_streams_by_backend (filters : StreamFilters) (flavor : StreamFlavor) :
    StreamFlavor :=
  let sorted_streams :=
    filters.enabled_backends.flatMap
      (fun be => flavor.streams.filter (fun d => d.name == be))
  { flavor with streams := sorted_streams }

/-- First-occurrence-order deduplication, used to model the contents of the
Python `set` built in `backend_not_enabled_flavor`. The iteration order of a
Python `set` is unspecified (it depends on string hashing), so only the membership of
the resulting collection is meaningful; we fix first-insertion order as the
canonical enumeration. -/
def dedupKeepFirst (seen : List String) : List String → List String
  | [] => []
  | x :: xs =>
    if x ∈ seen then dedupKeepFirst seen xs
    else x :: dedupKeepFirst (x :: seen) xs

/-- The `supported_backends` set of `backend_not_enabled_flavor`
(downloader.py 239-242): the backend names of all valid stream handles across
the flavors, deduplicated. -/
def supported_backends_of (flavors : List StreamFlavor) : List String :=
  dedupKeepFirst []
    (flavors.flatMap (fun fl => (fl.streams.filter (fun s => s.is_valid)).map (fun s => s.name)))

/-- The `error_messages` list of `backend_not_enabled_flavor`
(downloader.py 244-246): error messages of all invalid handles, in flavor
order. -/
def error_messages_of (flavors : List StreamFlavor) : List String :=
  flavors.flatMap
    (fun fl => (fl.streams.filter (fun s => !s.is_valid)).map (fun s => s.error_message))

/-- The diagnostic message computed by `backend_not_enabled_flavor`
(downloader.py 248-253). -/
def bnef_msg (flavors : List StreamFlavor) : String :=
  if (supported_backends_of flavors).isEmpty = false then
    "Required backend not enabled. Try: --backend "
      ++ String.intercalate "," (supported_backends_of flavors)
  else
    match error_messages_of flavors with
    | m :: _ => m
    | [] => "Stream not found"

/-- Modelled from the spec: `FailedFlavor` is defined in `yledl/streamflavor.py`,
which is not among the sources here. Per the spec it is the failure marker of a
SelectionResult: a flavor carrying a human-readable diagnostic, exposed to the
caller through a single invalid stream handle whose error message is the
diagnostic. -/
def FailedFlavor (error_message : String) : StreamFlavor :=
  { media_type := "unknown"
    height := none
    width := none
    bitrate := none
    streams := [{ name := "failed", is_valid := false, error_message := error_message }] }

/-- `backend_not_enabled_flavor` (downloader.py 238-255). -/
def backend_not_enabled_flavor (flavors : List StreamFlavor) : StreamFlavor :=
  FailedFlavor (bnef_msg flavors)

/-- `apply_backend_filter` (downloader.py 179-202). The final source
`else: return []` branch is unreachable because the empty input is returned
early; the embedding mirrors the reachable branches. -/
def apply_backend_filter (flavors : List StreamFlavor) (filters : StreamFilters) :
    List StreamFlavor :=
  if flavors.isEmpty then []
  else
    let filtered :=
      (flavors.map (filter_streams_by_backend filters)).filter
        (fun fl => !fl.streams.isEmpty)
    if filtered.isEmpty then [backend_not_enabled_flavor flavors] else filtered

/-- The acceptance predicate of `apply_resolution_filters` (downloader.py
214-220): within the bitrate ceiling (if set) and within the height ceiling
(if set), with absent values treated as 0. -/
def resolution_ok (filters : StreamFilters) (fl : StreamFlavor) : Bool :=
  (match filters.maxbitrate with
   | none => true
   | some mb => bitrateOr0 fl ≤ mb) &&
  (match filters.maxheight with
   | none => true
   | some mh => heightOr0 fl ≤ mh)

/-- `sort_max_bitrate` (downloader.py 205-206) as a strict comparison:
key is `bitrate or 0`. -/
def sort_max_bitrate_lt (x y : StreamFlavor) : Bool :=
  bitrateOr0 x < bitrateOr0 y

/-- `sort_max_resolution_min_bitrate` (downloader.py 208-209) as a strict
comparison: key is the tuple `(height or 0, -(bitrate or 0))`, so at equal
height the larger bitrate compares as smaller. -/
def sort_max_resolution_min_bitrate_lt (x y : StreamFlavor) : Bool :=
  heightOr0 x < heightOr0 y ∨
    (heightOr0 x = heightOr0 y ∧ bitrateOr0 y < bitrateOr0 x)

/-- `sort_max_resolution_max_bitrate` (downloader.py 211-212) as a strict
comparison: key is the tuple `(height or 0, bitrate or 0)`. -/
def sort_max_resolution_max_bitrate_lt (x y : StreamFlavor) : Bool :=
  heightOr0 x < heightOr0 y ∨
    (heightOr0 x = heightOr0 y ∧ bitrateOr0 x < bitrateOr0 y)

/-- The keyfunc dispatch of `apply_resolution_filters` (downloader.py
229-234). -/
def resolution_keyfunc_lt (filters : StreamFilters) :
    StreamFlavor → StreamFlavor → Bool :=
  if filters.maxheight.isSome && filters.maxbitrate.isSome then
    sort_max_resolution_max_bitrate_lt
  else if filters.maxheight.isSome then
    sort_max_resolution_min_bitrate_lt
  else
    sort_max_bitrate_lt

/-- `apply_resolution_filters` (downloader.py 204-236): keep the flavors within
both ceilings; if none remain fall back to the full input list and sort in
reverse whenever some ceiling was set; finally apply the Python stable sort with
the dispatched key. -/
def apply_resolution_filters (flavors : List StreamFlavor)
    (filters : StreamFilters) : List StreamFlavor :=
  let filtered := flavors.filter (resolution_ok filters)
  if filtered.isEmpty = false then
    pysorted (resolution_keyfunc_lt filters) false filtered
  else
    pysorted (resolution_keyfunc_lt filters)
      (filters.maxheight.isSome || filters.maxbitrate.isSome) flavors

/-- `select_flavor` (downloader.py 156-177): empty input yields `None`;
otherwise the backend filter and the resolution filters are applied and the
last element of the result (`filtered[-1]`) is selected, `None` if the result
is empty. -/
def select_flavor (flavors : List StreamFlavor) (filters : StreamFilters) :
    Option StreamFlavor :=
  if flavors.isEmpty then none
  else
    (apply_resolution_filters (apply_backend_filter flavors filters) filters).getLast?

/-- `select_streams` (downloader.py 265-270): the stream handles of the
selected flavor (`flavor.streams or []` is the identity on lists), `None` when
no flavor was selected. -/
def select_streams (flavors : List StreamFlavor) (filters : StreamFilters) :
    Option (List StreamHandle) :=
  (select_flavor flavors filters).map (fun fl => fl.streams)

/-! ## RetryOrchestrator (`try_all_streams`, downloader.py 136-154) and
PlaylistProcessor (`process`, downloader.py 111-134)

The side-effecting collaborators become parameters:
* `streamfunc` is the transfer closure passed into `process`
  (`download`/`pipe_clip`), returning a result code and an optional output
  artifact path;
* `isFile` models `os.path.isfile` and `removeOk` models whether `os.remove`
  succeeds or raises `OSError` (caught in `remove_retry_file`);
* `extractClip` models `self.extractor.extract_clip`;
* `toExternal` models `to_external_rd_code` from `yledl/exitcodes.py`,
  which the spec leaves to an external collaborator.

The observable side effects are recorded as an `Event` trace. -/

/-- Observable side effects of the orchestration core: resolving a playlist
item into a clip (`extract_clip`), invoking the transfer function on a stream
handle, and calling `os.remove` on a partial output file (with the success of
the removal; a `false` outcome is the caught-`OSError` path of
`remove_retry_file`). -/
inductive Event where
  | extractItem (clip : Clip)
  | attempt (backend : String)
  | osRemove (file : String) (ok : Bool)
deriving Repr, DecidableEq

/-- Python truthiness of the `output_file` value: `None` and the empty string
are falsy. -/
def truthy (s : Option String) : Bool :=
  match s with
  | none => false
  | some str => str != ""

/-- `remove_retry_file` (downloader.py 287-293): if the filename is truthy and
is an existing file, call `os.remove`; an `OSError` (modelled by
`removeOk f = false`) is caught and only logged. The returned trace records
the `os.remove` call, if any. -/
def remove_retry_file (isFile removeOk : String → Bool) (filename : Option String) :
    List Event :=
  match filename with
  | none => []
  | some f =>
    if (f != "") && isFile f then [Event.osRemove f (removeOk f)] else []

/-- The loop of `try_all_streams` (downloader.py 139-154), with the running
`latest_result` and `output_file` made explicit. Invalid streams are skipped;
before invoking the transfer on a valid stream any truthy previous output file
is passed to `remove_retry_file`; a retryable result continues the loop, any
other result is returned immediately. -/
def try_loop (streamfunc : Clip → StreamHandle → RDCode × Option String)
    (clip : Clip) (needsRetry : RDCode → Bool) (isFile removeOk : String → Bool) :
    List StreamHandle → RDCode → Option String → RDCode × List Event
  | [], latest_result, _ => (latest_result, [])
  | stream :: rest, latest_result, output_file =>
    if stream.is_valid then
      let cleanup :=
        if truthy output_file then remove_retry_file isFile removeOk output_file
        else []
      let step := streamfunc clip stream
      if needsRetry step.1 then
        let next := try_loop streamfunc clip needsRetry isFile removeOk rest step.1 step.2
        (next.1, cleanup ++ Event.attempt stream.name :: next.2)
      else
        (step.1, cleanup ++ [Event.attempt stream.name])
    else
      try_loop streamfunc clip needsRetry isFile removeOk rest latest_result output_file

/-- `try_all_streams` (downloader.py 136-154): run the loop with
`latest_result = RD_FAILED` and `output_file = None`. -/
def try_all_streams (streamfunc : Clip → StreamHandle → RDCode × Option String)
    (clip : Clip) (streams : List StreamHandle) (needsRetry : RDCode → Bool)
    (isFile removeOk : String → Bool) : RDCode × List Event :=
  try_loop streamfunc clip needsRetry isFile removeOk streams RDCode.failed none

/-- The body of the playlist loop of `process` (downloader.py 117-132) for one
clip, mapping the current `overall_status` to the new one. `if not streams`
is true for both `None` and the empty list; `elif all(...)` marks the clip
failed when every stream is invalid; otherwise `try_all_streams` runs and its
result replaces a non-`RD_FAILED` overall status when it is not
`RD_SUCCESS`. -/
def process_step (streamfunc : Clip → StreamHandle → RDCode × Option String)
    (needsRetry : RDCode → Bool) (filters : StreamFilters)
    (isFile removeOk : String → Bool) (overall_status : RDCode) (clip : Clip) :
    RDCode × List Event :=
  match select_streams clip.flavors filters with
  | none => (RDCode.failed, [Event.extractItem clip])
  | some [] => (RDCode.failed, [Event.extractItem clip])
  | some (s :: rest) =>
    if (s :: rest).all (fun stream => !stream.is_valid) then
      (RDCode.failed, [Event.extractItem clip])
    else
      let res := try_all_streams streamfunc clip (s :: rest) needsRetry isFile removeOk
      (if res.1 ≠ RDCode.success ∧ overall_status ≠ RDCode.failed then res.1
       else overall_status,
       Event.extractItem clip :: res.2)

/-- The playlist loop of `process` (downloader.py 117-132): fold
`process_step` over the playlist, threading `overall_status` and concatenating
the event traces. -/
def process_loop (extractClip : α → Clip)
    (streamfunc : Clip → StreamHandle → RDCode × Option String)
    (needsRetry : RDCode → Bool) (filters : StreamFilters)
    (isFile removeOk : String → Bool) :
    RDCode → List α → RDCode × List Event
  | overall_status, [] => (overall_status, [])
  | overall_status, clip_url :: rest =>
    let stepped :=
      process_step streamfunc needsRetry filters isFile removeOk overall_status
        (extractClip clip_url)
    let next :=
      process_loop extractClip streamfunc needsRetry filters isFile removeOk
        stepped.1 rest
    (next.1, stepped.2 ++ next.2)

/-- `process` (downloader.py 111-134): an empty playlist returns `RD_SUCCESS`
directly; otherwise the loop runs from `overall_status = RD_SUCCESS` and the
result passes through the external `to_external_rd_code` mapping. -/
def process (playlist : List α) (extractClip : α → Clip)
    (streamfunc : Clip → StreamHandle → RDCode × Option String)
    (needsRetry : RDCode → Bool) (filters : StreamFilters)
    (isFile removeOk : String → Bool) (toExternal : RDCode → RDCode) :
    RDCode × List Event :=
  if playlist.length = 0 then (RDCode.success, [])
  else
    let looped :=
      process_loop extractClip streamfunc needsRetry filters isFile removeOk
        RDCode.success playlist
    (toExternal looped.1, looped.2)

/-- The `needs_retry` closure of `download_clips` (downloader.py 46-47):
`res not in [RD_SUCCESS, RD_INCOMPLETE]`. -/
def download_needs_retry (res : RDCode) : Bool :=
  !(res == RDCode.success || res == RDCode.incomplete)

/-- The `needs_retry` closure of `pipe` (downloader.py 90-91):
`res == RD_SUBPROCESS_EXECUTE_FAILED`. -/
def pipe_needs_retry (res : RDCode) : Bool :=
  res == RDCode.subprocessExecuteFailed

/-- `download_clips` (downloader.py 21-61), after the external
`get_playlist` call: if the playlist has more than one clip and a single
output filename was given, or the output-name template is a constant pattern,
return `RD_FAILED` without processing anything; otherwise run `process` with
the download retry policy. The inner `download` closure (which talks to the
filename generator and the backend) is abstracted as `streamfunc`. -/
def download_clips (playlist : List α) (outputfilename : Option String)
    (is_constant_pattern : Bool) (extractClip : α → Clip)
    (streamfunc : Clip → StreamHandle → RDCode × Option String)
    (filters : StreamFilters) (isFile removeOk : String → Bool)
    (toExternal : RDCode → RDCode) : RDCode × List Event :=
  if 1 < playlist.length ∧ outputfilename.isSome then (RDCode.failed, [])
  else if 1 < playlist.length ∧ is_constant_pattern then (RDCode.failed, [])
  else
    process playlist extractClip streamfunc download_needs_retry filters
      isFile removeOk toExternal

/-- `pipe` (downloader.py 76-93), after the external `get_playlist` call:
truncate the playlist to its first element (`playlist[:1]`, downloader.py 80)
and run `process` with the pipe retry policy; the inner `pipe_clip` closure is
abstracted as `streamfunc`. -/
def pipe (playlist : List α) (extractClip : α → Clip)
    (streamfunc : Clip → StreamHandle → RDCode × Option String)
    (filters : StreamFilters) (isFile removeOk : String → Bool)
    (toExternal : RDCode → RDCode) : RDCode × List Event :=
  process (playlist.take 1) extractClip streamfunc pipe_needs_retry filters
    isFile removeOk toExternal

/-! ## Test fixtures

The flavor list of `successful_clip` in `tests/test_downloader.py` (lines
63-93): four video flavors, intentionally unsorted, each served by a single
valid backend stream. -/

/-- The four flavors of `successful_clip` (test_downloader.py 63-93), in the
source order, each with one valid handle for the enabled backend. -/
def test_flavors : List StreamFlavor :=
  [ { height := some 1080, width := some 1920, bitrate := some 2808,
      streams := [⟨"adobehdsphp", true, ""⟩] },
    { height := some 360, width := some 640, bitrate := some 880,
      streams := [⟨"adobehdsphp", true, ""⟩] },
    { height := some 720, width := some 1280, bitrate := some 1412,
      streams := [⟨"adobehdsphp", true, ""⟩] },
    { height := some 720, width := some 1280, bitrate := some 1872,
      streams := [⟨"adobehdsphp", true, ""⟩] } ]

/-- Filters with the test backend enabled and the given ceilings, matching
`StreamFilters(...)` with the `adobehdsphp` backend of the test fixture. -/
def test_filters (mh mb : Option Nat) : StreamFilters :=
  { maxheight := mh, maxbitrate := mb, enabled_backends := ["adobehdsphp"] }

/-! ## Spec-side reference functions for the RetryOrchestrator contract

These two definitions transcribe the words of the spec (§4.2): they are the
specification side of the refinement claim about `try_all_streams`, to be
compared with the source-side embedding. -/

/-- Modelled from the spec (§4.2 RetryOrchestrator): attempt the candidates in
order; a retryable outcome is remembered as the latest and the loop proceeds;
any other outcome is returned immediately; an exhausted candidate list returns
the last recorded outcome. -/
def spec_retry_result (attemptResult : StreamHandle → RDCode)
    (needsRetry : RDCode → Bool) : List StreamHandle → RDCode → RDCode
  | [], latest => latest
  | s :: rest, _ =>
    if needsRetry (attemptResult s) then
      spec_retry_result attemptResult needsRetry rest (attemptResult s)
    else attemptResult s

/-- Modelled from the spec (§4.2 RetryOrchestrator): the candidates actually
attempted are every candidate up to and including the first one whose outcome
is not retryable. -/
def spec_attempted (attemptResult : StreamHandle → RDCode)
    (needsRetry : RDCode → Bool) : List StreamHandle → List StreamHandle
  | [] => []
  | s :: rest =>
    if needsRetry (attemptResult s) then
      s :: spec_attempted attemptResult needsRetry rest
    else [s]

/-- The backends of the transfer attempts recorded in a trace, in order. -/
def attempt_names (evts : List Event) : List String :=
  evts.filterMap (fun e =>
    match e with
    | Event.attempt n => some n
    | _ => none)

/-! ## Concrete scenario for the aggregation of `process` -/

/-- Clip `n` of the aggregation scenario: one flavor of height `n` served by
one valid handle of backend "be". -/
def c3clip (n : Nat) : Clip :=
  ⟨[{ height := some n, streams := [⟨"be", true, ""⟩] }]⟩

/-- Transfer function of the aggregation scenario: the middle clip fails and
the others succeed, producing the item outcomes success, failed, success. -/
def c3streamfunc (clip : Clip) (_ : StreamHandle) : RDCode × Option String :=
  if clip == c3clip 1 then (RDCode.failed, none) else (RDCode.success, none)

/-- Filters of the aggregation scenario: backend "be" enabled, no ceilings. -/
def c3filters : StreamFilters := { enabled_backends := ["be"] }

/-! ## Lemmas about the stable sort -/

theorem mem_insertLeft {lt : α → α → Bool} {a x : α} :
    ∀ {l : List α}, x ∈ insertLeft lt a l ↔ x = a ∨ x ∈ l := by
  intro l
  induction l with
  | nil => simp [insertLeft]
  | cons y ys ih =>
    by_cases h : lt a y
    · simp [insertLeft, h]
    · simp only [insertLeft, h, if_neg, Bool.false_eq_true, if_false, List.mem_cons, ih]
      tauto

theorem length_insertLeft {lt : α → α → Bool} {a : α} :
    ∀ {l : List α}, (insertLeft lt a l).length = l.length + 1 := by
  intro l
  induction l with
  | nil => simp [insertLeft]
  | cons y ys ih =>
    by_cases h : lt a y
    · simp [insertLeft, h]
    · simp [insertLeft, h, ih]

theorem mem_stableSortAux {lt : α → α → Bool} {x : α} :
    ∀ {xs acc : List α}, x ∈ stableSortAux lt acc xs ↔ x ∈ acc ∨ x ∈ xs := by
  intro xs
  induction xs with
  | nil => simp [stableSortAux]
  | cons y ys ih =>
    intro acc
    simp only [stableSortAux, ih, mem_insertLeft, List.mem_cons]
    tauto

theorem length_stableSortAux {lt : α → α → Bool} :
    ∀ {xs acc : List α}, (stableSortAux lt acc xs).length = acc.length + xs.length := by
  intro xs
  induction xs with
  | nil => simp [stableSortAux]
  | cons y ys ih =>
    intro acc
    simp only [stableSortAux, ih, length_insertLeft, List.length_cons]
    omega

theorem pairwise_insertLeft {lt : α → α → Bool}
    (hasymm : ∀ a b, lt a b = true → lt b a = false)
    (htrans : ∀ a b c, lt a b = true → lt b c = true → lt a c = true)
    {x : α} :
    ∀ {l : List α}, l.Pairwise (fun a b => lt b a = false) →
      (insertLeft lt x l).Pairwise (fun a b => lt b a = false) := by
  intro l
  induction l with
  | nil => intro _; simp [insertLeft]
  | cons y ys ih =>
    intro hp
    rw [List.pairwise_cons] at hp
    obtain ⟨hy, hys⟩ := hp
    by_cases h : lt x y
    · simp only [insertLeft, h, if_true]
      rw [List.pairwise_cons]
      refine ⟨?_, List.Pairwise.cons hy hys⟩
      intro z hz
      rcases List.mem_cons.mp hz with rfl | hz
      · exact hasymm x z h
      · by_cases hzx : lt z x
        · have := htrans z x y hzx h
          rw [hy z hz] at this
          exact absurd this (by simp)
        · simpa using hzx
    · simp only [insertLeft, h, Bool.false_eq_true, if_false]
      rw [List.pairwise_cons]
      refine ⟨?_, ih hys⟩
      intro z hz
      rcases mem_insertLeft.mp hz with rfl | hz
      · simpa using h
      · exact hy z hz

theorem pairwise_stableSortAux {lt : α → α → Bool}
    (hasymm : ∀ a b, lt a b = true → lt b a = false)
    (htrans : ∀ a b c, lt a b = true → lt b c = true → lt a c = true) :
    ∀ {xs acc : List α}, acc.Pairwise (fun a b => lt b a = false) →
      (stableSortAux lt acc xs).Pairwise (fun a b => lt b a = false) := by
  intro xs
  induction xs with
  | nil => intro acc h; exact h
  | cons y ys ih =>
    intro acc h
    exact ih (pairwise_insertLeft hasymm htrans h)

theorem getLast?_mem_of_eq : ∀ {l : List α} {y : α}, l.getLast? = some y → y ∈ l := by
  intro l
  induction l with
  | nil => intro y h; simp [List.getLast?] at h
  | cons a t ih =>
    intro y h
    cases t with
    | nil =>
      simp only [List.getLast?_singleton, Option.some.injEq] at h
      simp [h]
    | cons b t2 =>
      rw [List.getLast?_cons_cons] at h
      exact List.mem_cons.mpr (Or.inr (ih h))

theorem pairwise_rel_getLast {R : α → α → Prop} :
    ∀ {l : List α} {y : α}, l.Pairwise R → l.getLast? = some y →
      ∀ x ∈ l, x = y ∨ R x y := by
  intro l
  induction l with
  | nil => intro y _ h; simp [List.getLast?] at h
  | cons a t ih =>
    intro y hp hl x hx
    cases t with
    | nil =>
      simp only [List.getLast?_singleton, Option.some.injEq] at hl
      rcases List.mem_singleton.mp hx with rfl
      exact Or.inl hl
    | cons b t2 =>
      rw [List.getLast?_cons_cons] at hl
      rw [List.pairwise_cons] at hp
      obtain ⟨ha, hp2⟩ := hp
      rcases List.mem_cons.mp hx with rfl | hx2
      · exact Or.inr (ha y (getLast?_mem_of_eq hl))
      · exact ih hp2 hl x hx2

/-- The last element of the ascending stable sort is maximal: no input element
strictly exceeds it. -/
theorem getLast?_stableSort_max {lt : α → α → Bool}
    (hasymm : ∀ a b, lt a b = true → lt b a = false)
    (htrans : ∀ a b c, lt a b = true → lt b c = true → lt a c = true)
    {xs : List α} {y : α} (hy : (stableSortAux lt [] xs).getLast? = some y) :
    ∀ x ∈ xs, lt y x = false := by
  intro x hx
  have hpair := @pairwise_stableSortAux _ lt hasymm htrans xs [] List.Pairwise.nil
  have hxmem : x ∈ stableSortAux lt [] xs := by
    rw [mem_stableSortAux]; exact Or.inr hx
  rcases pairwise_rel_getLast hpair hy x hxmem with rfl | h
  · by_cases hself : lt x x
    · have := hasymm x x hself
      rw [this] at hself
      exact absurd hself (by simp)
    · simpa using hself
  · exact h

theorem mem_of_getLast?_stableSort {lt : α → α → Bool} {xs : List α} {y : α}
    (hy : (stableSortAux lt [] xs).getLast? = some y) : y ∈ xs := by
  have := getLast?_mem_of_eq hy
  rw [mem_stableSortAux] at this
  simpa using this

theorem stableSortAux_ne_nil {lt : α → α → Bool} {xs : List α} (h : xs ≠ []) :
    stableSortAux lt [] xs ≠ [] := by
  intro hc
  have := @length_stableSortAux _ lt xs []
  rw [hc] at this
  simp at this
  exact h (List.eq_nil_of_length_eq_zero this.symm)

theorem pysorted_ne_nil {lt : α → α → Bool} {reverse : Bool} {xs : List α}
    (h : xs ≠ []) : pysorted lt reverse xs ≠ [] := by
  unfold pysorted
  by_cases hr : reverse <;> simp [hr, stableSortAux_ne_nil h]

theorem mem_pysorted {lt : α → α → Bool} {reverse : Bool} {x : α} {xs : List α} :
    x ∈ pysorted lt reverse xs ↔ x ∈ xs := by
  unfold pysorted
  by_cases hr : reverse <;> simp [hr, mem_stableSortAux]

/-- The last element of `pysorted lt false xs` is maximal for `lt`. -/
theorem pysorted_false_getLast_max {lt : α → α → Bool}
    (hasymm : ∀ a b, lt a b = true → lt b a = false)
    (htrans : ∀ a b c, lt a b = true → lt b c = true → lt a c = true)
    {xs : List α} {y : α} (hy : (pysorted lt false xs).getLast? = some y) :
    y ∈ xs ∧ ∀ x ∈ xs, lt y x = false := by
  unfold pysorted at hy
  simp only [Bool.false_eq_true, if_false] at hy
  exact ⟨mem_of_getLast?_stableSort hy, getLast?_stableSort_max hasymm htrans hy⟩

/-- The last element of `pysorted lt true xs` (the Python `reverse=True`) is
minimal for `lt`. -/
theorem pysorted_true_getLast_min {lt : α → α → Bool}
    (hasymm : ∀ a b, lt a b = true → lt b a = false)
    (htrans : ∀ a b c, lt a b = true → lt b c = true → lt a c = true)
    {xs : List α} {y : α} (hy : (pysorted lt true xs).getLast? = some y) :
    y ∈ xs ∧ ∀ x ∈ xs, lt x y = false := by
  unfold pysorted at hy
  simp only [if_true] at hy
  have hasymm2 : ∀ a b, lt b a = true → lt a b = false := fun a b h => hasymm b a h
  have htrans2 : ∀ a b c, lt b a = true → lt c b = true → lt c a = true :=
    fun a b c h1 h2 => htrans c b a h2 h1
  exact ⟨mem_of_getLast?_stableSort hy,
    @getLast?_stableSort_max _ (fun a b => lt b a) hasymm2 htrans2 _ _ hy⟩

/-! ## The three key comparisons are strict orders -/

theorem sort_max_bitrate_lt_asymm :
    ∀ a b, sort_max_bitrate_lt a b = true → sort_max_bitrate_lt b a = false := by
  intro a b h
  simp only [sort_max_bitrate_lt, decide_eq_true_eq] at h
  simp only [sort_max_bitrate_lt, decide_eq_false_iff_not]
  omega

theorem sort_max_bitrate_lt_trans :
    ∀ a b c, sort_max_bitrate_lt a b = true → sort_max_bitrate_lt b c = true →
      sort_max_bitrate_lt a c = true := by
  intro a b c h1 h2
  simp only [sort_max_bitrate_lt, decide_eq_true_eq] at h1 h2 ⊢
  omega

theorem sort_max_resolution_min_bitrate_lt_asymm :
    ∀ a b, sort_max_resolution_min_bitrate_lt a b = true →
      sort_max_resolution_min_bitrate_lt b a = false := by
  intro a b h
  simp only [sort_max_resolution_min_bitrate_lt, decide_eq_true_eq] at h
  simp only [sort_max_resolution_min_bitrate_lt, decide_eq_false_iff_not]
  omega

theorem sort_max_resolution_min_bitrate_lt_trans :
    ∀ a b c, sort_max_resolution_min_bitrate_lt a b = true →
      sort_max_resolution_min_bitrate_lt b c = true →
      sort_max_resolution_min_bitrate_lt a c = true := by
  intro a b c h1 h2
  simp only [sort_max_resolution_min_bitrate_lt, decide_eq_true_eq] at h1 h2 ⊢
  omega

theorem sort_max_resolution_max_bitrate_lt_asymm :
    ∀ a b, sort_max_resolution_max_bitrate_lt a b = true →
      sort_max_resolution_max_bitrate_lt b a = false := by
  intro a b h
  simp only [sort_max_resolution_max_bitrate_lt, decide_eq_true_eq] at h
  simp only [sort_max_resolution_max_bitrate_lt, decide_eq_false_iff_not]
  omega

theorem sort_max_resolution_max_bitrate_lt_trans :
    ∀ a b c, sort_max_resolution_max_bitrate_lt a b = true →
      sort_max_resolution_max_bitrate_lt b c = true →
      sort_max_resolution_max_bitrate_lt a c = true := by
  intro a b c h1 h2
  simp only [sort_max_resolution_max_bitrate_lt, decide_eq_true_eq] at h1 h2 ⊢
  omega

/-! ## Lemmas about the backend filter -/

theorem heightOr0_filter_streams_by_backend (filters : StreamFilters)
    (fl : StreamFlavor) :
    heightOr0 (filter_streams_by_backend filters fl) = heightOr0 fl := rfl

theorem bitrateOr0_filter_streams_by_backend (filters : StreamFilters)
    (fl : StreamFlavor) :
    bitrateOr0 (filter_streams_by_backend filters fl) = bitrateOr0 fl := rfl

theorem filter_streams_by_backend_ne_nil {filters : StreamFilters}
    {fl : StreamFlavor}
    (h : ∃ s ∈ fl.streams, s.name ∈ filters.enabled_backends) :
    (filter_streams_by_backend filters fl).streams ≠ [] := by
  obtain ⟨s, hs, hn⟩ := h
  intro hc
  have hmem : s ∈ (filter_streams_by_backend filters fl).streams := by
    simp only [filter_streams_by_backend, List.mem_flatMap]
    exact ⟨s.name, hn, by simp [List.mem_filter, hs]⟩
  rw [hc] at hmem
  exact absurd hmem (List.not_mem_nil s)

/-- When every flavor has at least one enabled stream handle, the backend
filter drops nothing: it is exactly the per-flavor stream restriction. -/
theorem apply_backend_filter_all_enabled {flavors : List StreamFlavor}
    {filters : StreamFilters}
    (h : ∀ fl ∈ flavors, ∃ s ∈ fl.streams, s.name ∈ filters.enabled_backends) :
    apply_backend_filter flavors filters =
      flavors.map (filter_streams_by_backend filters) := by
  unfold apply_backend_filter
  by_cases hne : flavors.isEmpty
  · rw [List.isEmpty_iff] at hne
    subst hne
    simp
  · simp only [hne, Bool.false_eq_true, if_false]
    have hfil : (flavors.map (filter_streams_by_backend filters)).filter
        (fun fl => !fl.streams.isEmpty) =
        flavors.map (filter_streams_by_backend filters) := by
      apply List.filter_eq_self.mpr
      intro a ha
      rw [List.mem_map] at ha
      obtain ⟨fl, hfl, rfl⟩ := ha
      have := filter_streams_by_backend_ne_nil (h fl hfl)
      simpa [List.isEmpty_iff] using this
    rw [hfil]
    have hmapne : (flavors.map (filter_streams_by_backend filters)).isEmpty = false := by
      rw [List.isEmpty_iff] at hne
      rw [List.isEmpty_eq_false]
      simp [hne]
    simp [hmapne]

theorem apply_backend_filter_ne_nil {flavors : List StreamFlavor}
    {filters : StreamFilters} (h : flavors ≠ []) :
    apply_backend_filter flavors filters ≠ [] := by
  unfold apply_backend_filter
  have hne : flavors.isEmpty = false := by simpa [List.isEmpty_iff] using h
  simp only [hne, Bool.false_eq_true, if_false]
  by_cases hf : ((flavors.map (filter_streams_by_backend filters)).filter
      (fun fl => !fl.streams.isEmpty)).isEmpty
  · simp [hf]
  · simp only [hf, Bool.false_eq_true, if_false]
    intro hc
    rw [List.isEmpty_iff] at hf
    exact hf hc

/-! ## Lemmas about the resolution filter -/

theorem resolution_ok_mh_only {filters : StreamFilters} {H : Nat}
    (hmh : filters.maxheight = some H) (hmb : filters.maxbitrate = none)
    (fl : StreamFlavor) :
    resolution_ok filters fl = decide (heightOr0 fl ≤ H) := by
  simp [resolution_ok, hmh, hmb]

theorem resolution_ok_unset {filters : StreamFilters}
    (hmh : filters.maxheight = none) (hmb : filters.maxbitrate = none)
    (fl : StreamFlavor) : resolution_ok filters fl = true := by
  simp [resolution_ok, hmh, hmb]

theorem resolution_keyfunc_mh_only {filters : StreamFilters} {H : Nat}
    (hmh : filters.maxheight = some H) (hmb : filters.maxbitrate = none) :
    resolution_keyfunc_lt filters = sort_max_resolution_min_bitrate_lt := by
  simp [resolution_keyfunc_lt, hmh, hmb]

theorem resolution_keyfunc_unset {filters : StreamFilters}
    (hmh : filters.maxheight = none) (hmb : filters.maxbitrate = none) :
    resolution_keyfunc_lt filters = sort_max_bitrate_lt := by
  simp [resolution_keyfunc_lt, hmh, hmb]

theorem apply_resolution_filters_ne_nil {flavors : List StreamFlavor}
    {filters : StreamFilters} (h : flavors ≠ []) :
    apply_resolution_filters flavors filters ≠ [] := by
  unfold apply_resolution_filters
  by_cases hf : (flavors.filter (resolution_ok filters)).isEmpty = false
  · simp only [hf, if_true]
    apply pysorted_ne_nil
    intro hc
    rw [hc] at hf
    simp at hf
  · simp only [hf, if_false]
    exact pysorted_ne_nil h

theorem mem_of_mem_apply_resolution_filters {flavors : List StreamFlavor}
    {filters : StreamFilters} {x : StreamFlavor}
    (h : x ∈ apply_resolution_filters flavors filters) : x ∈ flavors := by
  unfold apply_resolution_filters at h
  dsimp only at h
  cases hf : (flavors.filter (resolution_ok filters)).isEmpty with
  | false =>
    rw [hf] at h
    rw [if_pos rfl] at h
    rw [mem_pysorted] at h
    exact List.mem_of_mem_filter h
  | true =>
    rw [hf] at h
    rw [if_neg (by simp)] at h
    rwa [mem_pysorted] at h

theorem select_flavor_eq_getLast {flavors : List StreamFlavor}
    {filters : StreamFilters} (h : flavors ≠ []) :
    select_flavor flavors filters =
      (apply_resolution_filters (apply_backend_filter flavors filters)
        filters).getLast? := by
  unfold select_flavor
  have hne : flavors.isEmpty = false := by simpa [List.isEmpty_iff] using h
  simp [hne]

theorem apply_resolution_filters_pos {flavors : List StreamFlavor}
    {filters : StreamFilters} (h : flavors.filter (resolution_ok filters) ≠ []) :
    apply_resolution_filters flavors filters =
      pysorted (resolution_keyfunc_lt filters) false
        (flavors.filter (resolution_ok filters)) := by
  unfold apply_resolution_filters
  dsimp only
  rw [if_pos (List.isEmpty_eq_false.mpr h)]

theorem apply_resolution_filters_neg {flavors : List StreamFlavor}
    {filters : StreamFilters} (h : flavors.filter (resolution_ok filters) = []) :
    apply_resolution_filters flavors filters =
      pysorted (resolution_keyfunc_lt filters)
        (filters.maxheight.isSome || filters.maxbitrate.isSome) flavors := by
  unfold apply_resolution_filters
  dsimp only
  rw [if_neg (by simp [h])]

theorem exists_getLast?_of_ne_nil : ∀ {l : List α}, l ≠ [] → ∃ y, l.getLast? = some y := by
  intro l
  induction l with
  | nil => intro h; exact absurd rfl h
  | cons a t ih =>
    intro _
    cases t with
    | nil => exact ⟨a, by simp⟩
    | cons b t2 =>
      obtain ⟨y, hy⟩ := ih (by simp)
      exact ⟨y, by rw [List.getLast?_cons_cons]; exact hy⟩

/-! ## Claim theorems: FlavorFilter -/

/-- C1: with `maxheight = H` set (and `maxbitrate` unset), on a non-empty
flavor list in which every flavor has an enabled backend handle,
`select_flavor` picks some flavor; if at least one flavor is within the
ceiling (absent height as 0) the pick is within the ceiling, and if every
flavor exceeds the ceiling the pick exceeds it with the smallest height among
all flavors (closest fit from above). -/
theorem C1_maxheight_ceiling (flavors : List StreamFlavor)
    (filters : StreamFilters) (H : Nat)
    (hmh : filters.maxheight = some H) (hmb : filters.maxbitrate = none)
    (hne : flavors ≠ [])
    (henabled : ∀ fl ∈ flavors, ∃ s ∈ fl.streams, s.name ∈ filters.enabled_backends) :
    ∃ sel, select_flavor flavors filters = some sel ∧
      ((∃ fl ∈ flavors, heightOr0 fl ≤ H) → heightOr0 sel ≤ H) ∧
      ((∀ fl ∈ flavors, H < heightOr0 fl) →
        H < heightOr0 sel ∧ ∀ fl ∈ flavors, heightOr0 sel ≤ heightOr0 fl) := by
  have hbf : apply_backend_filter flavors filters =
      flavors.map (filter_streams_by_backend filters) :=
    apply_backend_filter_all_enabled henabled
  have hbfne : apply_backend_filter flavors filters ≠ [] :=
    apply_backend_filter_ne_nil hne
  have hrfne := @apply_resolution_filters_ne_nil _ filters hbfne
  obtain ⟨sel, hsel⟩ := exists_getLast?_of_ne_nil hrfne
  have hselect : select_flavor flavors filters = some sel := by
    rw [select_flavor_eq_getLast hne]; exact hsel
  refine ⟨sel, hselect, ?_, ?_⟩
  · intro hex
    obtain ⟨fl0, hfl0, hh0⟩ := hex
    have hprefne :
        (apply_backend_filter flavors filters).filter (resolution_ok filters) ≠ [] := by
      intro hc
      have hmem : filter_streams_by_backend filters fl0 ∈
          apply_backend_filter flavors filters := by
        rw [hbf]; exact List.mem_map_of_mem _ hfl0
      have hok : resolution_ok filters (filter_streams_by_backend filters fl0) = true := by
        rw [resolution_ok_mh_only hmh hmb]
        rw [heightOr0_filter_streams_by_backend]
        simpa using hh0
      have hminner : filter_streams_by_backend filters fl0 ∈
          (apply_backend_filter flavors filters).filter (resolution_ok filters) :=
        List.mem_filter.mpr ⟨hmem, hok⟩
      rw [hc] at hminner
      exact absurd hminner (List.not_mem_nil _)
    have hrf := apply_resolution_filters_pos hprefne
    rw [hrf] at hsel
    have hselmem : sel ∈
        (apply_backend_filter flavors filters).filter (resolution_ok filters) := by
      have := getLast?_mem_of_eq hsel
      rwa [mem_pysorted] at this
    have hok := (List.mem_filter.mp hselmem).2
    rw [resolution_ok_mh_only hmh hmb] at hok
    simpa using hok
  · intro hall
    have hfilnil :
        (apply_backend_filter flavors filters).filter (resolution_ok filters) = [] := by
      apply List.filter_eq_nil_iff.mpr
      intro a ha
      rw [hbf, List.mem_map] at ha
      obtain ⟨fl, hfl, rfl⟩ := ha
      rw [resolution_ok_mh_only hmh hmb]
      rw [heightOr0_filter_streams_by_backend]
      have := hall fl hfl
      simp only [decide_eq_true_eq]
      omega
    have hrf := apply_resolution_filters_neg hfilnil
    have hrev : (filters.maxheight.isSome || filters.maxbitrate.isSome) = true := by
      simp [hmh]
    rw [hrev, resolution_keyfunc_mh_only hmh hmb] at hrf
    rw [hrf] at hsel
    obtain ⟨hselmem, hminall⟩ :=
      pysorted_true_getLast_min sort_max_resolution_min_bitrate_lt_asymm
        sort_max_resolution_min_bitrate_lt_trans hsel
    constructor
    · rw [hbf, List.mem_map] at hselmem
      obtain ⟨fl, hfl, rfl⟩ := hselmem
      rw [heightOr0_filter_streams_by_backend]
      exact hall fl hfl
    · intro fl hfl
      have hx : filter_streams_by_backend filters fl ∈
          apply_backend_filter flavors filters := by
        rw [hbf]; exact List.mem_map_of_mem _ hfl
      have hlt := hminall _ hx
      simp only [sort_max_resolution_min_bitrate_lt, decide_eq_false_iff_not,
        heightOr0_filter_streams_by_backend,
        bitrateOr0_filter_streams_by_backend] at hlt
      push_neg at hlt
      omega

/-- Witness for C1 at the test clip flavors with `maxheight = 720`. -/
theorem C1_maxheight_ceiling_witness :
    ∃ sel,
      select_flavor test_flavors (test_filters (some 720) none) = some sel ∧
      ((∃ fl ∈ test_flavors, heightOr0 fl ≤ 720) → heightOr0 sel ≤ 720) ∧
      ((∀ fl ∈ test_flavors, 720 < heightOr0 fl) →
        720 < heightOr0 sel ∧ ∀ fl ∈ test_flavors, heightOr0 sel ≤ heightOr0 fl) :=
  C1_maxheight_ceiling test_flavors (test_filters (some 720) none) 720 rfl rfl
    (by decide)
    (by
      intro fl hfl
      exact ⟨⟨"adobehdsphp", true, ""⟩, by fin_cases hfl <;> simp [test_flavors],
        by simp [test_filters]⟩)

/-- C2: on the four test clip flavors (heights 1080/360/720/720, bitrates
2808/880/1412/1872) with `maxheight = 720` and `maxbitrate` unset,
`select_flavor` picks the 720p flavor with the lower bitrate 1412, not the
720p flavor with bitrate 1872 (test_download_filter_exact_resolution). -/
theorem C2_equal_height_prefers_lower_bitrate :
    select_flavor test_flavors (test_filters (some 720) none) =
      some { height := some 720, width := some 1280, bitrate := some 1412,
             streams := [⟨"adobehdsphp", true, ""⟩] } := by
  decide

/-- C9: with both `maxheight` and `maxbitrate` unset, on a non-empty flavor
list in which every flavor has an enabled backend handle, `select_flavor`
picks a flavor whose bitrate (absent as 0) is the maximum over all flavors. -/
theorem C9_unconstrained_selects_max_bitrate (flavors : List StreamFlavor)
    (filters : StreamFilters)
    (hmh : filters.maxheight = none) (hmb : filters.maxbitrate = none)
    (hne : flavors ≠ [])
    (henabled : ∀ fl ∈ flavors, ∃ s ∈ fl.streams, s.name ∈ filters.enabled_backends) :
    ∃ sel, select_flavor flavors filters = some sel ∧
      (∀ fl ∈ flavors, bitrateOr0 fl ≤ bitrateOr0 sel) ∧
      (∃ fl ∈ flavors, bitrateOr0 sel = bitrateOr0 fl) := by
  have hbf : apply_backend_filter flavors filters =
      flavors.map (filter_streams_by_backend filters) :=
    apply_backend_filter_all_enabled henabled
  have hbfne : apply_backend_filter flavors filters ≠ [] :=
    apply_backend_filter_ne_nil hne
  have hrfne := @apply_resolution_filters_ne_nil _ filters hbfne
  obtain ⟨sel, hsel⟩ := exists_getLast?_of_ne_nil hrfne
  have hselect : select_flavor flavors filters = some sel := by
    rw [select_flavor_eq_getLast hne]; exact hsel
  have hfeq : (apply_backend_filter flavors filters).filter (resolution_ok filters) =
      apply_backend_filter flavors filters := by
    apply List.filter_eq_self.mpr
    intro a _
    exact resolution_ok_unset hmh hmb a
  have hrf := @apply_resolution_filters_pos (apply_backend_filter flavors filters)
    filters (by rw [hfeq]; exact hbfne)
  rw [hfeq, resolution_keyfunc_unset hmh hmb] at hrf
  rw [hrf] at hsel
  obtain ⟨hselmem, hmax⟩ :=
    pysorted_false_getLast_max sort_max_bitrate_lt_asymm sort_max_bitrate_lt_trans hsel
  refine ⟨sel, hselect, ?_, ?_⟩
  · intro fl hfl
    have hx : filter_streams_by_backend filters fl ∈
        apply_backend_filter flavors filters := by
      rw [hbf]; exact List.mem_map_of_mem _ hfl
    have hlt := hmax _ hx
    simp only [sort_max_bitrate_lt, decide_eq_false_iff_not,
      bitrateOr0_filter_streams_by_backend] at hlt
    omega
  · rw [hbf, List.mem_map] at hselmem
    obtain ⟨fl, hfl, rfl⟩ := hselmem
    exact ⟨fl, hfl, bitrateOr0_filter_streams_by_backend filters fl⟩

/-- Witness for C9 at the test clip flavors with no ceilings: the pick has
the maximal bitrate 2808. -/
theorem C9_unconstrained_selects_max_bitrate_witness :
    ∃ sel, select_flavor test_flavors (test_filters none none) = some sel ∧
      (∀ fl ∈ test_flavors, bitrateOr0 fl ≤ bitrateOr0 sel) ∧
      (∃ fl ∈ test_flavors, bitrateOr0 sel = bitrateOr0 fl) :=
  C9_unconstrained_selects_max_bitrate test_flavors (test_filters none none)
    rfl rfl (by decide)
    (by
      intro fl hfl
      exact ⟨⟨"adobehdsphp", true, ""⟩, by fin_cases hfl <;> simp [test_flavors],
        by simp [test_filters]⟩)

/-- C6: the resolution/bitrate filtering step never empties a non-empty
backend-filtered list; when no flavor satisfies both ceilings the result has
exactly the members of the full backend-filtered list (fallback); hence
`select_flavor` returns some flavor whenever some flavor has an
enabled-backend handle. -/
theorem C6_fallback_guarantees_result (filters : StreamFilters) :
    (∀ bf : List StreamFlavor, bf ≠ [] → apply_resolution_filters bf filters ≠ []) ∧
    (∀ bf : List StreamFlavor, (∀ fl ∈ bf, resolution_ok filters fl = false) →
      ∀ x, x ∈ apply_resolution_filters bf filters ↔ x ∈ bf) ∧
    (∀ flavors : List StreamFlavor,
      (∃ fl ∈ flavors, ∃ s ∈ fl.streams, s.name ∈ filters.enabled_backends) →
      ∃ sel, select_flavor flavors filters = some sel) := by
  refine ⟨?_, ?_, ?_⟩
  · intro bf hbf
    exact apply_resolution_filters_ne_nil hbf
  · intro bf hall x
    have hnil : bf.filter (resolution_ok filters) = [] := by
      apply List.filter_eq_nil_iff.mpr
      intro a ha
      simp [hall a ha]
    rw [apply_resolution_filters_neg hnil, mem_pysorted]
  · intro flavors hex
    obtain ⟨fl, hfl, _⟩ := hex
    have hne : flavors ≠ [] := by
      intro hc
      rw [hc] at hfl
      exact absurd hfl (List.not_mem_nil fl)
    obtain ⟨sel, hsel⟩ :=
      exists_getLast?_of_ne_nil
        (@apply_resolution_filters_ne_nil _ filters
          (apply_backend_filter_ne_nil hne))
    exact ⟨sel, by rw [select_flavor_eq_getLast hne]; exact hsel⟩

/-- Witness for C6 with `maxheight = 100` (every test flavor exceeds it):
the filtering step keeps the members, and selection still returns a flavor. -/
theorem C6_fallback_guarantees_result_witness :
    (apply_resolution_filters test_flavors (test_filters (some 100) none) ≠ []) ∧
    (({ height := some 1080, width := some 1920, bitrate := some 2808,
        streams := [⟨"adobehdsphp", true, ""⟩] } : StreamFlavor) ∈
        apply_resolution_filters test_flavors (test_filters (some 100) none) ↔
      ({ height := some 1080, width := some 1920, bitrate := some 2808,
         streams := [⟨"adobehdsphp", true, ""⟩] } : StreamFlavor) ∈ test_flavors) ∧
    (∃ sel, select_flavor test_flavors (test_filters (some 100) none) = some sel) :=
  ⟨(C6_fallback_guarantees_result (test_filters (some 100) none)).1 test_flavors
      (by decide),
   (C6_fallback_guarantees_result (test_filters (some 100) none)).2.1 test_flavors
      (by decide) _,
   (C6_fallback_guarantees_result (test_filters (some 100) none)).2.2 test_flavors
      ⟨{ height := some 1080, width := some 1920, bitrate := some 2808,
         streams := [⟨"adobehdsphp", true, ""⟩] },
       by simp [test_flavors], ⟨"adobehdsphp", true, ""⟩, by simp,
       by simp [test_filters]⟩⟩

/-! ## Claim C5: diagnostics when the backend filter drops everything -/

theorem mem_dedupKeepFirst {x : String} :
    ∀ {l seen : List String}, x ∈ dedupKeepFirst seen l ↔ x ∈ l ∧ x ∉ seen := by
  intro l
  induction l with
  | nil => simp [dedupKeepFirst]
  | cons a t ih =>
    intro seen
    by_cases h : a ∈ seen
    · rw [dedupKeepFirst, if_pos h, ih]
      constructor
      · rintro ⟨hx, hn⟩
        exact ⟨List.mem_cons_of_mem a hx, hn⟩
      · rintro ⟨hor, hn⟩
        rcases List.mem_cons.mp hor with rfl | hx
        · exact absurd h hn
        · exact ⟨hx, hn⟩
    · rw [dedupKeepFirst, if_neg h]
      constructor
      · intro hx
        rcases List.mem_cons.mp hx with rfl | hx2
        · exact ⟨List.mem_cons_self x t, h⟩
        · obtain ⟨hxt, hxn⟩ := ih.mp hx2
          have hxs : x ∉ seen := fun hc => hxn (List.mem_cons_of_mem a hc)
          exact ⟨List.mem_cons_of_mem a hxt, hxs⟩
      · rintro ⟨hor, hn⟩
        rcases List.mem_cons.mp hor with rfl | hx
        · exact List.mem_cons_self x _
        · by_cases hxa : x = a
          · rw [hxa]
            exact List.mem_cons_self a _
          · apply List.mem_cons_of_mem
            apply ih.mpr
            refine ⟨hx, ?_⟩
            intro hc
            rcases List.mem_cons.mp hc with h1 | h2
            · exact hxa h1
            · exact hn h2

theorem mem_supported_backends_of {flavors : List StreamFlavor} {n : String} :
    n ∈ supported_backends_of flavors ↔
      ∃ fl ∈ flavors, ∃ s ∈ fl.streams, s.is_valid = true ∧ s.name = n := by
  unfold supported_backends_of
  rw [mem_dedupKeepFirst]
  simp only [List.mem_flatMap, List.mem_map, List.mem_filter, List.not_mem_nil,
    not_false_iff, and_true]
  constructor
  · rintro ⟨fl, hfl, s, ⟨hs, hv⟩, rfl⟩
    exact ⟨fl, hfl, s, hs, hv, rfl⟩
  · rintro ⟨fl, hfl, s, hs, hv, rfl⟩
    exact ⟨fl, hfl, s, ⟨hs, hv⟩, rfl⟩

theorem filter_streams_by_backend_all_dropped {filters : StreamFilters}
    {fl : StreamFlavor}
    (h : ∀ s ∈ fl.streams, s.name ∉ filters.enabled_backends) :
    (filter_streams_by_backend filters fl).streams = [] := by
  unfold filter_streams_by_backend
  dsimp only
  apply List.flatMap_eq_nil_iff.mpr
  intro be hbe
  apply List.filter_eq_nil_iff.mpr
  intro d hd
  intro hc
  rw [beq_iff_eq] at hc
  exact h d hd (hc ▸ hbe)

theorem apply_backend_filter_all_dropped {flavors : List StreamFlavor}
    {filters : StreamFilters} (hne : flavors ≠ [])
    (hdrop : ∀ fl ∈ flavors, ∀ s ∈ fl.streams, s.name ∉ filters.enabled_backends) :
    apply_backend_filter flavors filters = [backend_not_enabled_flavor flavors] := by
  unfold apply_backend_filter
  have hbne : flavors.isEmpty = false := by simpa [List.isEmpty_iff] using hne
  simp only [hbne, Bool.false_eq_true, if_false]
  have hfil : (flavors.map (filter_streams_by_backend filters)).filter
      (fun fl => !fl.streams.isEmpty) = [] := by
    apply List.filter_eq_nil_iff.mpr
    intro a ha
    rw [List.mem_map] at ha
    obtain ⟨fl, hfl, rfl⟩ := ha
    rw [filter_streams_by_backend_all_dropped (hdrop fl hfl)]
    simp
  rw [hfil]
  simp

theorem error_messages_of_all_invalid :
    ∀ {flavors : List StreamFlavor},
      (∀ fl ∈ flavors, ∀ s ∈ fl.streams, s.is_valid = false) →
      error_messages_of flavors =
        (flavors.flatMap (fun fl => fl.streams)).map (fun s => s.error_message) := by
  intro flavors
  induction flavors with
  | nil => intro _; rfl
  | cons a t ih =>
    intro h
    unfold error_messages_of
    unfold error_messages_of at ih
    simp only [List.flatMap_cons, List.map_append]
    rw [ih (fun fl hfl => h fl (List.mem_cons_of_mem a hfl))]
    have hfa : a.streams.filter (fun s => !s.is_valid) = a.streams := by
      apply List.filter_eq_self.mpr
      intro s hs
      simp [h a (List.mem_cons_self a t) s hs]
    rw [hfa]

theorem supported_backends_of_all_invalid {flavors : List StreamFlavor}
    (h : ∀ fl ∈ flavors, ∀ s ∈ fl.streams, s.is_valid = false) :
    supported_backends_of flavors = [] := by
  apply List.eq_nil_iff_forall_not_mem.mpr
  intro n hn
  rw [mem_supported_backends_of] at hn
  obtain ⟨fl, hfl, s, hs, hv, _⟩ := hn
  rw [h fl hfl s hs] at hv
  exact absurd hv (by simp)

/-- C5: on a non-empty flavor list none of whose stream handles has an enabled
backend, the backend filter returns exactly one failure flavor; its diagnostic
is, in order of precedence: the required-backend message listing the backends
of the valid handles if any handle is valid, else the error message of the
first invalid handle, else "Stream not found"; and an empty input list yields the
empty result, not a failure. -/
theorem C5_all_dropped_failure_flavor (flavors : List StreamFlavor)
    (filters : StreamFilters) :
    (flavors ≠ [] →
      (∀ fl ∈ flavors, ∀ s ∈ fl.streams, s.name ∉ filters.enabled_backends) →
      apply_backend_filter flavors filters = [FailedFlavor (bnef_msg flavors)]) ∧
    ((∃ fl ∈ flavors, ∃ s ∈ fl.streams, s.is_valid = true) →
      bnef_msg flavors =
        "Required backend not enabled. Try: --backend "
          ++ String.intercalate "," (supported_backends_of flavors)) ∧
    (∀ n, n ∈ supported_backends_of flavors ↔
      ∃ fl ∈ flavors, ∃ s ∈ fl.streams, s.is_valid = true ∧ s.name = n) ∧
    ((∀ fl ∈ flavors, ∀ s ∈ fl.streams, s.is_valid = false) →
      ∀ s rest, flavors.flatMap (fun fl => fl.streams) = s :: rest →
        bnef_msg flavors = s.error_message) ∧
    ((∀ fl ∈ flavors, fl.streams = []) → bnef_msg flavors = "Stream not found") ∧
    (apply_backend_filter [] filters = []) := by
  refine ⟨?_, ?_, ?_, ?_, ?_, ?_⟩
  · intro hne hdrop
    rw [apply_backend_filter_all_dropped hne hdrop]
    rfl
  · intro hex
    obtain ⟨fl, hfl, s, hs, hv⟩ := hex
    have hmem : s.name ∈ supported_backends_of flavors :=
      mem_supported_backends_of.mpr ⟨fl, hfl, s, hs, hv, rfl⟩
    have hne : (supported_backends_of flavors).isEmpty = false := by
      rw [List.isEmpty_eq_false]
      intro hc
      rw [hc] at hmem
      exact absurd hmem (List.not_mem_nil _)
    unfold bnef_msg
    rw [if_pos hne]
  · intro n
    exact mem_supported_backends_of
  · intro hallinv s rest hflat
    have hsup := supported_backends_of_all_invalid hallinv
    have herr := error_messages_of_all_invalid hallinv
    unfold bnef_msg
    rw [if_neg (by simp [hsup])]
    rw [herr, hflat]
    rfl
  · intro hempty
    have hsup : supported_backends_of flavors = [] := by
      apply supported_backends_of_all_invalid
      intro fl hfl s hs
      rw [hempty fl hfl] at hs
      exact absurd hs (List.not_mem_nil s)
    have herr : error_messages_of flavors = [] := by
      unfold error_messages_of
      apply List.flatMap_eq_nil_iff.mpr
      intro fl hfl
      rw [hempty fl hfl]
      rfl
    unfold bnef_msg
    rw [if_neg (by simp [hsup]), herr]
  · rfl

/-- Witness for C5 at a flavor list with one valid but not-enabled handle. -/
theorem C5_all_dropped_failure_flavor_witness :
    apply_backend_filter [{ streams := [⟨"youtubedl", true, ""⟩] }]
        { enabled_backends := ["adobehdsphp"] } =
      [FailedFlavor (bnef_msg [{ streams := [⟨"youtubedl", true, ""⟩] }])] ∧
    bnef_msg [{ streams := [⟨"youtubedl", true, ""⟩] }] =
      "Required backend not enabled. Try: --backend "
        ++ String.intercalate ","
            (supported_backends_of [{ streams := [⟨"youtubedl", true, ""⟩] }]) :=
  ⟨(C5_all_dropped_failure_flavor [{ streams := [⟨"youtubedl", true, ""⟩] }]
        { enabled_backends := ["adobehdsphp"] }).1 (by decide) (by decide),
   (C5_all_dropped_failure_flavor [{ streams := [⟨"youtubedl", true, ""⟩] }]
        { enabled_backends := ["adobehdsphp"] }).2.1
     ⟨{ streams := [⟨"youtubedl", true, ""⟩] }, by simp,
      ⟨"youtubedl", true, ""⟩, by simp, rfl⟩⟩

/-! ## Claim C4: the retry loop -/

theorem attempt_names_append (a b : List Event) :
    attempt_names (a ++ b) = attempt_names a ++ attempt_names b := by
  unfold attempt_names
  exact List.filterMap_append a b _

theorem attempt_names_remove_retry_file (isFile removeOk : String → Bool)
    (f : Option String) :
    attempt_names (remove_retry_file isFile removeOk f) = [] := by
  unfold remove_retry_file
  cases f with
  | none => rfl
  | some s =>
    by_cases h : (s != "") && isFile s
    · simp only [h, if_true]
      rfl
    · simp only [h, Bool.false_eq_true, if_false]
      rfl

theorem attempt_names_cleanup (isFile removeOk : String → Bool)
    (out : Option String) :
    attempt_names
      (if truthy out then remove_retry_file isFile removeOk out else []) = [] := by
  by_cases h : truthy out
  · rw [if_pos h]
    exact attempt_names_remove_retry_file isFile removeOk out
  · rw [if_neg h]
    rfl

theorem try_loop_characterization
    (streamfunc : Clip → StreamHandle → RDCode × Option String) (clip : Clip)
    (needsRetry : RDCode → Bool) (isFile removeOk : String → Bool) :
    ∀ (streams : List StreamHandle) (latest : RDCode) (output_file : Option String),
      (try_loop streamfunc clip needsRetry isFile removeOk streams latest
          output_file).1 =
        spec_retry_result (fun s => (streamfunc clip s).1) needsRetry
          (streams.filter (fun s => s.is_valid)) latest ∧
      attempt_names (try_loop streamfunc clip needsRetry isFile removeOk streams
          latest output_file).2 =
        (spec_attempted (fun s => (streamfunc clip s).1) needsRetry
          (streams.filter (fun s => s.is_valid))).map (fun s => s.name) := by
  intro streams
  induction streams with
  | nil =>
    intro latest out
    exact ⟨rfl, rfl⟩
  | cons s rest ih =>
    intro latest out
    by_cases hv : s.is_valid
    · rw [List.filter_cons_of_pos (by simpa using hv)]
      unfold try_loop
      dsimp only
      rw [if_pos hv]
      by_cases hr : needsRetry (streamfunc clip s).1
      · obtain ⟨ih1, ih2⟩ := ih (streamfunc clip s).1 (streamfunc clip s).2
        constructor
        · dsimp only
          rw [if_pos hr]
          unfold spec_retry_result
          rw [if_pos hr]
          exact ih1
        · dsimp only
          rw [if_pos hr]
          unfold spec_attempted
          rw [if_pos hr]
          rw [attempt_names_append, attempt_names_cleanup]
          simp only [List.nil_append, List.map_cons]
          unfold attempt_names
          rw [List.filterMap_cons]
          dsimp only
          unfold attempt_names at ih2
          rw [ih2]
      · constructor
        · dsimp only
          rw [if_neg hr]
          unfold spec_retry_result
          rw [if_neg hr]
        · dsimp only
          rw [if_neg hr]
          unfold spec_attempted
          rw [if_neg hr]
          rw [attempt_names_append, attempt_names_cleanup]
          rfl
    · rw [List.filter_cons_of_neg (by simpa using hv)]
      unfold try_loop
      dsimp only
      rw [if_neg hv]
      exact ih latest out

/-- C4: `try_all_streams` refines the RetryOrchestrator contract of the spec:
invalid candidates are skipped and contribute no transfer attempt, the
attempts are exactly the valid candidates up to and including the first with a
non-retryable outcome (whose outcome is returned), and an exhausted candidate
list returns the last recorded outcome, defaulting to RD_FAILED when no valid
candidate was attempted. -/
theorem C4_retry_skip_and_terminal
    (streamfunc : Clip → StreamHandle → RDCode × Option String) (clip : Clip)
    (needsRetry : RDCode → Bool) (isFile removeOk : String → Bool)
    (streams : List StreamHandle) :
    (try_all_streams streamfunc clip streams needsRetry isFile removeOk).1 =
      spec_retry_result (fun s => (streamfunc clip s).1) needsRetry
        (streams.filter (fun s => s.is_valid)) RDCode.failed ∧
    attempt_names
        (try_all_streams streamfunc clip streams needsRetry isFile removeOk).2 =
      (spec_attempted (fun s => (streamfunc clip s).1) needsRetry
        (streams.filter (fun s => s.is_valid))).map (fun s => s.name) :=
  try_loop_characterization streamfunc clip needsRetry isFile removeOk streams
    RDCode.failed none

/-! ## Claim C7: cleanup ordering between attempts -/

theorem try_loop_none_starts_with_attempt
    (streamfunc : Clip → StreamHandle → RDCode × Option String) (clip : Clip)
    (needsRetry : RDCode → Bool) (isFile removeOk : String → Bool) :
    ∀ (streams : List StreamHandle) (latest : RDCode),
      (try_loop streamfunc clip needsRetry isFile removeOk streams latest none).2 = [] ∨
      ∃ n evs,
        (try_loop streamfunc clip needsRetry isFile removeOk streams latest none).2 =
          Event.attempt n :: evs := by
  intro streams
  induction streams with
  | nil => intro latest; exact Or.inl rfl
  | cons s rest ih =>
    intro latest
    by_cases hv : s.is_valid
    · unfold try_loop
      dsimp only
      rw [if_pos hv]
      have hcl : (if truthy (none : Option String) then
          remove_retry_file isFile removeOk none else []) = [] := rfl
      by_cases hr : needsRetry (streamfunc clip s).1
      · rw [if_pos hr]
        dsimp only
        rw [hcl]
        exact Or.inr ⟨s.name, _, rfl⟩
      · rw [if_neg hr]
        dsimp only
        rw [hcl]
        exact Or.inr ⟨s.name, _, rfl⟩
    · unfold try_loop
      dsimp only
      rw [if_neg hv]
      exact ih latest

/-- C7: no `os.remove` call ever precedes the first transfer attempt (the
trace is empty or starts with an attempt event); and in the three-candidate
scenario where the first two valid candidates return retryable outcomes with
partial files on disk and the third succeeds, exactly three attempts happen,
the partial file of attempt 1 is removed between attempts 1 and 2, the partial
file of attempt 2 between attempts 2 and 3, the call returns success, and the
trace (hence the result) is the same for every `removeOk` oracle, so a failed
`os.remove` (a caught `OSError`) does not abort the sequence. -/
theorem C7_cleanup_between_attempts :
    (∀ (streamfunc : Clip → StreamHandle → RDCode × Option String) (clip : Clip)
        (needsRetry : RDCode → Bool) (isFile removeOk : String → Bool)
        (streams : List StreamHandle),
      (try_all_streams streamfunc clip streams needsRetry isFile removeOk).2 = [] ∨
      ∃ n evs,
        (try_all_streams streamfunc clip streams needsRetry isFile removeOk).2 =
          Event.attempt n :: evs) ∧
    (∀ (streamfunc : Clip → StreamHandle → RDCode × Option String) (clip : Clip)
        (needsRetry : RDCode → Bool) (isFile removeOk : String → Bool)
        (s1 s2 s3 : StreamHandle) (r1 r2 : RDCode) (f1 f2 : String)
        (out3 : Option String),
      s1.is_valid = true → s2.is_valid = true → s3.is_valid = true →
      streamfunc clip s1 = (r1, some f1) → needsRetry r1 = true →
      f1 ≠ "" → isFile f1 = true →
      streamfunc clip s2 = (r2, some f2) → needsRetry r2 = true →
      f2 ≠ "" → isFile f2 = true →
      streamfunc clip s3 = (RDCode.success, out3) →
      needsRetry RDCode.success = false →
      try_all_streams streamfunc clip [s1, s2, s3] needsRetry isFile removeOk =
        (RDCode.success,
         [Event.attempt s1.name, Event.osRemove f1 (removeOk f1),
          Event.attempt s2.name, Event.osRemove f2 (removeOk f2),
          Event.attempt s3.name])) := by
  constructor
  · intro streamfunc clip needsRetry isFile removeOk streams
    exact try_loop_none_starts_with_attempt streamfunc clip needsRetry isFile
      removeOk streams RDCode.failed
  · intro streamfunc clip needsRetry isFile removeOk s1 s2 s3 r1 r2 f1 f2 out3
      hv1 hv2 hv3 h1 hr1 hf1 hisf1 h2 hr2 hf2 hisf2 h3 hr3
    unfold try_all_streams
    unfold try_loop
    dsimp only
    rw [if_pos hv1, h1]
    dsimp only
    rw [if_pos hr1]
    unfold try_loop
    dsimp only
    rw [if_pos hv2, h2]
    dsimp only
    rw [if_pos hr2]
    unfold try_loop
    dsimp only
    rw [if_pos hv3, h3]
    dsimp only
    rw [if_neg (by rw [hr3]; simp)]
    have hc1 : (if truthy (some f1) then remove_retry_file isFile removeOk (some f1)
        else []) = [Event.osRemove f1 (removeOk f1)] := by
      have ht : truthy (some f1) = true := by
        unfold truthy
        simpa using hf1
      rw [if_pos ht]
      unfold remove_retry_file
      dsimp only
      rw [if_pos (by simp [Bool.and_eq_true, bne_iff_ne, hisf1, hf1])]
    have hc2 : (if truthy (some f2) then remove_retry_file isFile removeOk (some f2)
        else []) = [Event.osRemove f2 (removeOk f2)] := by
      have ht : truthy (some f2) = true := by
        unfold truthy
        simpa using hf2
      rw [if_pos ht]
      unfold remove_retry_file
      dsimp only
      rw [if_pos (by simp [Bool.and_eq_true, bne_iff_ne, hisf2, hf2])]
    rw [hc1, hc2]
    have hnone : (if truthy (none : Option String) then
        remove_retry_file isFile removeOk none else []) = [] := rfl
    rw [hnone]
    rfl

/-- Witness for C7: a concrete three-candidate run with failing removals
(`removeOk` constantly false) still performs all three attempts and returns
success. -/
theorem C7_cleanup_between_attempts_witness :
    try_all_streams
        (fun _ s =>
          if s.name == "a" then (RDCode.incomplete, some "p1")
          else if s.name == "b" then (RDCode.incomplete, some "p2")
          else (RDCode.success, none))
        ⟨[]⟩ [⟨"a", true, ""⟩, ⟨"b", true, ""⟩, ⟨"c", true, ""⟩]
        (fun r => !(r == RDCode.success)) (fun _ => true) (fun _ => false) =
      (RDCode.success,
       [Event.attempt "a", Event.osRemove "p1" false,
        Event.attempt "b", Event.osRemove "p2" false,
        Event.attempt "c"]) :=
  C7_cleanup_between_attempts.2
    (fun _ s =>
      if s.name == "a" then (RDCode.incomplete, some "p1")
      else if s.name == "b" then (RDCode.incomplete, some "p2")
      else (RDCode.success, none))
    ⟨[]⟩ (fun r => !(r == RDCode.success)) (fun _ => true) (fun _ => false)
    ⟨"a", true, ""⟩ ⟨"b", true, ""⟩ ⟨"c", true, ""⟩
    RDCode.incomplete RDCode.incomplete "p1" "p2" none
    rfl rfl rfl (by decide) rfl (by decide) rfl (by decide) rfl (by decide) rfl
    (by decide) rfl

/-! ## Claim C3: monotone aggregation of the overall status -/

theorem process_step_failed_sticky
    (streamfunc : Clip → StreamHandle → RDCode × Option String)
    (needsRetry : RDCode → Bool) (filters : StreamFilters)
    (isFile removeOk : String → Bool) (clip : Clip) :
    (process_step streamfunc needsRetry filters isFile removeOk RDCode.failed
        clip).1 = RDCode.failed := by
  unfold process_step
  cases hss : select_streams clip.flavors filters with
  | none => rfl
  | some l =>
    cases l with
    | nil => rfl
    | cons s rest =>
      by_cases hall : (s :: rest).all (fun stream => !stream.is_valid)
      · simp only [hall, if_true]
      · simp only [hall, Bool.false_eq_true, if_false]
        simp

theorem process_loop_failed_sticky (extractClip : α → Clip)
    (streamfunc : Clip → StreamHandle → RDCode × Option String)
    (needsRetry : RDCode → Bool) (filters : StreamFilters)
    (isFile removeOk : String → Bool) :
    ∀ playlist : List α,
      (process_loop extractClip streamfunc needsRetry filters isFile removeOk
          RDCode.failed playlist).1 = RDCode.failed := by
  intro playlist
  induction playlist with
  | nil => rfl
  | cons u rest ih =>
    unfold process_loop
    dsimp only
    rw [process_step_failed_sticky]
    exact ih

/-- C3: the overall status of the playlist loop starts at RD_SUCCESS and is
monotone: RD_FAILED is sticky (a later item never overwrites it), an item with
no streams or only invalid streams forces RD_FAILED, an item that ran replaces
a non-failed overall status only when its outcome is not RD_SUCCESS, and the
concrete item outcomes [success, failed, success] aggregate to RD_FAILED
(modulo the external result-code mapping applied by `process`). -/
theorem C3_overall_status_monotone :
    (∀ (α : Type) (extractClip : α → Clip)
        (streamfunc : Clip → StreamHandle → RDCode × Option String)
        (needsRetry : RDCode → Bool) (filters : StreamFilters)
        (isFile removeOk : String → Bool) (playlist : List α),
      (process_loop extractClip streamfunc needsRetry filters isFile removeOk
          RDCode.failed playlist).1 = RDCode.failed) ∧
    (∀ (streamfunc : Clip → StreamHandle → RDCode × Option String)
        (needsRetry : RDCode → Bool) (filters : StreamFilters)
        (isFile removeOk : String → Bool) (overall : RDCode) (clip : Clip),
      (select_streams clip.flavors filters = none ∨
       select_streams clip.flavors filters = some [] ∨
       (∃ l, select_streams clip.flavors filters = some l ∧ l ≠ [] ∧
         ∀ s ∈ l, s.is_valid = false)) →
      (process_step streamfunc needsRetry filters isFile removeOk overall
          clip).1 = RDCode.failed) ∧
    (∀ (streamfunc : Clip → StreamHandle → RDCode × Option String)
        (needsRetry : RDCode → Bool) (filters : StreamFilters)
        (isFile removeOk : String → Bool) (overall : RDCode) (clip : Clip)
        (streams : List StreamHandle),
      overall ≠ RDCode.failed →
      select_streams clip.flavors filters = some streams →
      (∃ s ∈ streams, s.is_valid = true) →
      (process_step streamfunc needsRetry filters isFile removeOk overall
          clip).1 =
        (if (try_all_streams streamfunc clip streams needsRetry isFile
              removeOk).1 ≠ RDCode.success
         then (try_all_streams streamfunc clip streams needsRetry isFile
              removeOk).1
         else overall)) ∧
    (∀ toExternal : RDCode → RDCode,
      (process [c3clip 0, c3clip 1, c3clip 2] id c3streamfunc
          download_needs_retry c3filters (fun _ => false) (fun _ => false)
          toExternal).1 = toExternal RDCode.failed) := by
  refine ⟨?_, ?_, ?_, ?_⟩
  · intro α extractClip streamfunc needsRetry filters isFile removeOk playlist
    exact process_loop_failed_sticky extractClip streamfunc needsRetry filters
      isFile removeOk playlist
  · intro streamfunc needsRetry filters isFile removeOk overall clip hdis
    unfold process_step
    rcases hdis with hss | hss | ⟨l, hss, hlne, hinv⟩
    · rw [hss]
    · rw [hss]
    · rw [hss]
      cases l with
      | nil => exact absurd rfl hlne
      | cons s rest =>
        have hall : (s :: rest).all (fun stream => !stream.is_valid) = true := by
          rw [List.all_eq_true]
          intro st hst
          simp [hinv st hst]
        simp only [hall, if_true]
  · intro streamfunc needsRetry filters isFile removeOk overall clip streams
      hof hss hex
    unfold process_step
    rw [hss]
    cases streams with
    | nil =>
      obtain ⟨s, hs, _⟩ := hex
      exact absurd hs (List.not_mem_nil s)
    | cons s rest =>
      obtain ⟨s0, hs0, hval⟩ := hex
      have hall : (s :: rest).all (fun stream => !stream.is_valid) = false := by
        rw [List.all_eq_false]
        exact ⟨s0, hs0, by simp [hval]⟩
      simp only [hall, Bool.false_eq_true, if_false]
      by_cases hres : (try_all_streams streamfunc clip (s :: rest) needsRetry
          isFile removeOk).1 = RDCode.success
      · simp [hres]
      · simp [hres, hof]
  · intro toExternal
    have hloop : (process_loop (α := Clip) id c3streamfunc download_needs_retry
        c3filters (fun _ => false) (fun _ => false) RDCode.success
        [c3clip 0, c3clip 1, c3clip 2]).1 = RDCode.failed := by decide
    unfold process
    rw [if_neg (by decide)]
    dsimp only
    exact congrArg toExternal hloop

/-- Witness for C3: a clip with no flavors marks the overall status failed,
and a failed status survives a later successful item. -/
theorem C3_overall_status_monotone_witness :
    (process_step c3streamfunc download_needs_retry c3filters (fun _ => false)
        (fun _ => false) RDCode.success ⟨[]⟩).1 = RDCode.failed ∧
    (process_step c3streamfunc download_needs_retry c3filters (fun _ => false)
        (fun _ => false) RDCode.incomplete (c3clip 0)).1 =
      (if (try_all_streams c3streamfunc (c3clip 0) [⟨"be", true, ""⟩]
            download_needs_retry (fun _ => false) (fun _ => false)).1 ≠
          RDCode.success
       then (try_all_streams c3streamfunc (c3clip 0) [⟨"be", true, ""⟩]
            download_needs_retry (fun _ => false) (fun _ => false)).1
       else RDCode.incomplete) ∧
    (process_loop (α := Clip) id c3streamfunc download_needs_retry c3filters
        (fun _ => false) (fun _ => false) RDCode.failed [c3clip 0]).1 =
      RDCode.failed :=
  ⟨C3_overall_status_monotone.2.1 c3streamfunc download_needs_retry c3filters
      (fun _ => false) (fun _ => false) RDCode.success ⟨[]⟩
      (Or.inl (by decide)),
   C3_overall_status_monotone.2.2.1 c3streamfunc download_needs_retry c3filters
      (fun _ => false) (fun _ => false) RDCode.incomplete (c3clip 0)
      [⟨"be", true, ""⟩] (by decide) (by decide)
      ⟨⟨"be", true, ""⟩, by simp, rfl⟩,
   C3_overall_status_monotone.1 Clip id c3streamfunc download_needs_retry
      c3filters (fun _ => false) (fun _ => false) [c3clip 0]⟩

/-! ## Claim C8: the multi-item output guard of `download_clips` -/

/-- C8: with more than one playlist item and a fixed output filename, or with
more than one item and a constant output template, `download_clips` returns
RD_FAILED with an empty trace (no item is extracted, selected or transferred);
with at most one item, or with neither condition, the guard does not fire and
the call is exactly `process`. -/
theorem C8_multi_item_output_guard :
    (∀ (α : Type) (playlist : List α) (outputfilename : Option String)
        (is_constant_pattern : Bool) (extractClip : α → Clip)
        (streamfunc : Clip → StreamHandle → RDCode × Option String)
        (filters : StreamFilters) (isFile removeOk : String → Bool)
        (toExternal : RDCode → RDCode),
      1 < playlist.length → outputfilename ≠ none →
      download_clips playlist outputfilename is_constant_pattern extractClip
          streamfunc filters isFile removeOk toExternal =
        (RDCode.failed, [])) ∧
    (∀ (α : Type) (playlist : List α) (outputfilename : Option String)
        (extractClip : α → Clip)
        (streamfunc : Clip → StreamHandle → RDCode × Option String)
        (filters : StreamFilters) (isFile removeOk : String → Bool)
        (toExternal : RDCode → RDCode),
      1 < playlist.length →
      download_clips playlist outputfilename true extractClip streamfunc
          filters isFile removeOk toExternal =
        (RDCode.failed, [])) ∧
    (∀ (α : Type) (playlist : List α) (outputfilename : Option String)
        (is_constant_pattern : Bool) (extractClip : α → Clip)
        (streamfunc : Clip → StreamHandle → RDCode × Option String)
        (filters : StreamFilters) (isFile removeOk : String → Bool)
        (toExternal : RDCode → RDCode),
      (playlist.length ≤ 1 ∨
        (outputfilename = none ∧ is_constant_pattern = false)) →
      download_clips playlist outputfilename is_constant_pattern extractClip
          streamfunc filters isFile removeOk toExternal =
        process playlist extractClip streamfunc download_needs_retry filters
          isFile removeOk toExternal) := by
  refine ⟨?_, ?_, ?_⟩
  · intro α playlist outputfilename is_constant_pattern extractClip streamfunc
      filters isFile removeOk toExternal hlen hout
    unfold download_clips
    rw [if_pos ⟨hlen, Option.isSome_iff_ne_none.mpr hout⟩]
  · intro α playlist outputfilename extractClip streamfunc filters isFile
      removeOk toExternal hlen
    unfold download_clips
    by_cases hout : outputfilename.isSome
    · rw [if_pos ⟨hlen, hout⟩]
    · rw [if_neg (by intro hc; exact hout hc.2)]
      rw [if_pos ⟨hlen, rfl⟩]
  · intro α playlist outputfilename is_constant_pattern extractClip streamfunc
      filters isFile removeOk toExternal hcond
    unfold download_clips
    rcases hcond with hlen | ⟨hnone, hconst⟩
    · rw [if_neg (by intro hc; omega), if_neg (by intro hc; omega)]
    · rw [if_neg (by intro hc; rw [hnone] at hc; exact absurd hc.2 (by simp))]
      rw [if_neg (by intro hc; rw [hconst] at hc; exact absurd hc.2 (by simp))]

/-- Witness for C8: a two-item playlist with a fixed output filename fails
with an empty trace, and a one-item playlist with the same filename is
processed. -/
theorem C8_multi_item_output_guard_witness :
    download_clips [c3clip 0, c3clip 1] (some "out.mkv") false id c3streamfunc
        c3filters (fun _ => false) (fun _ => false) id =
      (RDCode.failed, []) ∧
    download_clips [c3clip 0] (some "out.mkv") false id c3streamfunc c3filters
        (fun _ => false) (fun _ => false) id =
      process [c3clip 0] id c3streamfunc download_needs_retry c3filters
        (fun _ => false) (fun _ => false) id :=
  ⟨C8_multi_item_output_guard.1 Clip [c3clip 0, c3clip 1] (some "out.mkv")
      false id c3streamfunc c3filters (fun _ => false) (fun _ => false) id
      (by decide) (by decide),
   C8_multi_item_output_guard.2.2 Clip [c3clip 0] (some "out.mkv") false id
      c3streamfunc c3filters (fun _ => false) (fun _ => false) id
      (Or.inl (by decide))⟩

/-! ## Claim C10: `pipe` truncates the playlist to the first item -/

/-- C10: `pipe` on a playlist with a first item `u` behaves exactly as on the
one-item playlist `[u]` — equivalently, as `process` on `[u]` with the pipe
retry policy — so later clips are never resolved or attempted and the overall
result depends only on the first clip. -/
theorem C10_pipe_first_item_only (α : Type) (u : α) (rest : List α)
    (extractClip : α → Clip)
    (streamfunc : Clip → StreamHandle → RDCode × Option String)
    (filters : StreamFilters) (isFile removeOk : String → Bool)
    (toExternal : RDCode → RDCode) :
    pipe (u :: rest) extractClip streamfunc filters isFile removeOk toExternal =
      pipe [u] extractClip streamfunc filters isFile removeOk toExternal ∧
    pipe (u :: rest) extractClip streamfunc filters isFile removeOk toExternal =
      process [u] extractClip streamfunc pipe_needs_retry filters isFile
        removeOk toExternal := by
  constructor
  · rfl
  · rfl

end YleDl
